import Mathlib

/-!
Shallow embedding of the `TypeAccessorBuilder` type-resolution engine from
`crates/aptos-type-accessor/src/lib.rs`.
-/

/-- A Move module identifier: an (address, name) pair, ordered by address then name. -/
structure ModuleId where
  address : Nat
  name : Nat
deriving DecidableEq

/-- Strict lexicographic order on `ModuleId` (address first, then name),
mirroring the `Ord` instance used by the `BTreeSet`/`BTreeMap` keys. -/
def ModuleId.blt (a b : ModuleId) : Bool :=
  Nat.blt a.address b.address || (Nat.beq a.address b.address && Nat.blt a.name b.name)

/-- The `MoveType` enum from `aptos_api_types`: a field's declared type.
Addresses and identifiers are abstracted as naturals; the struct variant
inlines the `MoveStructTag` fields (address, module, name, generic type params). -/
inductive MoveType where
  | bool : MoveType
  | u8 : MoveType
  | u16 : MoveType
  | u32 : MoveType
  | u64 : MoveType
  | u128 : MoveType
  | u256 : MoveType
  | address : MoveType
  | signer : MoveType
  | vector (items : MoveType) : MoveType
  | struct (address : Nat) (module : Nat) (name : Nat)
      (generic_type_params : List MoveType) : MoveType
  | genericTypeParam (index : Nat) : MoveType
  | reference (mutable : Bool) (target : MoveType) : MoveType

mutual

/-- Structural (full nested shape) equality test on `MoveType`, matching the
derived `PartialEq` used by the `HashSet` cycle guard in the source. -/
def MoveType.beq : MoveType → MoveType → Bool
  | .bool, .bool => true
  | .u8, .u8 => true
  | .u16, .u16 => true
  | .u32, .u32 => true
  | .u64, .u64 => true
  | .u128, .u128 => true
  | .u256, .u256 => true
  | .address, .address => true
  | .signer, .signer => true
  | .vector a, .vector b => a.beq b
  | .struct a1 m1 n1 g1, .struct a2 m2 n2 g2 =>
      a1 == a2 && m1 == m2 && n1 == n2 && MoveType.beqList g1 g2
  | .genericTypeParam i, .genericTypeParam j => i == j
  | .reference mu1 t1, .reference mu2 t2 => mu1 == mu2 && t1.beq t2
  | _, _ => false

/-- Pointwise `MoveType.beq` on lists (for struct generic type parameters). -/
def MoveType.beqList : List MoveType → List MoveType → Bool
  | [], [] => true
  | a :: as, b :: bs => a.beq b && MoveType.beqList as bs
  | _, _ => false

end

mutual

theorem MoveType.beq_refl : ∀ a : MoveType, a.beq a = true
  | .bool | .u8 | .u16 | .u32 | .u64 | .u128 | .u256 | .address | .signer => rfl
  | .vector a => by simp [MoveType.beq, MoveType.beq_refl a]
  | .struct a m n g => by simp [MoveType.beq, MoveType.beqList_refl g]
  | .genericTypeParam i => by simp [MoveType.beq]
  | .reference mu t => by simp [MoveType.beq, MoveType.beq_refl t]

theorem MoveType.beqList_refl : ∀ as : List MoveType, MoveType.beqList as as = true
  | [] => rfl
  | a :: as => by simp [MoveType.beqList, MoveType.beq_refl a, MoveType.beqList_refl as]

end

mutual

theorem MoveType.beq_eq : ∀ a b : MoveType, a.beq b = true → a = b
  | .bool, .bool, _ | .u8, .u8, _ | .u16, .u16, _ | .u32, .u32, _ | .u64, .u64, _
  | .u128, .u128, _ | .u256, .u256, _ | .address, .address, _ | .signer, .signer, _ => rfl
  | .vector a, .vector b, h => by
      simp only [MoveType.beq] at h
      simp [MoveType.beq_eq a b h]
  | .struct a1 m1 n1 g1, .struct a2 m2 n2 g2, h => by
      simp only [MoveType.beq, Bool.and_eq_true, beq_iff_eq] at h
      obtain ⟨⟨⟨h1, h2⟩, h3⟩, h4⟩ := h
      simp [h1, h2, h3, MoveType.beqList_eq g1 g2 h4]
  | .genericTypeParam i, .genericTypeParam j, h => by
      simp only [MoveType.beq, beq_iff_eq] at h
      simp [h]
  | .reference mu1 t1, .reference mu2 t2, h => by
      simp only [MoveType.beq, Bool.and_eq_true, beq_iff_eq] at h
      simp [h.1, MoveType.beq_eq t1 t2 h.2]

theorem MoveType.beqList_eq : ∀ as bs : List MoveType, MoveType.beqList as bs = true → as = bs
  | [], [], _ => rfl
  | a :: as, b :: bs, h => by
      simp only [MoveType.beqList, Bool.and_eq_true] at h
      simp [MoveType.beq_eq a b h.1, MoveType.beqList_eq as bs h.2]

end

instance : DecidableEq MoveType := fun a b =>
  if h : a.beq b = true then .isTrue (MoveType.beq_eq a b h)
  else .isFalse (fun he => h (he ▸ MoveType.beq_refl a))

/-- A named, typed struct field (`MoveStructField`). -/
structure MoveStructField where
  name : Nat
  typ : MoveType
deriving DecidableEq

/-- A struct declaration: a name plus its ordered list of fields (`MoveStruct`). -/
structure MoveStruct where
  name : Nat
  fields : List MoveStructField
deriving DecidableEq

/-- A structured module (`MoveModule`): its own address and name plus its structs. -/
structure MoveModule where
  address : Nat
  name : Nat
  structs : List MoveStruct
deriving DecidableEq

section Containers

variable {κ : Type} {α : Type}

/-- `BTreeMap::insert` on the sorted-association-list model: keeps keys strictly
ascending w.r.t. `blt`, replacing the value when the key is already present. -/
def mapInsert (blt : κ → κ → Bool) (k : κ) (v : α) : List (κ × α) → List (κ × α)
  | [] => [(k, v)]
  | (k2, v2) :: rest =>
    if blt k k2 then (k, v) :: (k2, v2) :: rest
    else if blt k2 k then (k2, v2) :: mapInsert blt k v rest
    else (k, v) :: rest

/-- `BTreeMap::get` on the sorted-association-list model. -/
def mapLookup [DecidableEq κ] (k : κ) : List (κ × α) → Option α
  | [] => none
  | (k2, v2) :: rest => if k = k2 then some v2 else mapLookup k rest

/-- `BTreeMap::contains_key` on the sorted-association-list model. -/
def containsKey [DecidableEq κ] (k : κ) (l : List (κ × α)) : Bool :=
  (mapLookup k l).isSome

/-- `BTreeSet::insert` on the sorted-list model: no-op when already present. -/
def setInsert (blt : κ → κ → Bool) (k : κ) : List κ → List κ
  | [] => [k]
  | k2 :: rest =>
    if blt k k2 then k :: k2 :: rest
    else if blt k2 k then k2 :: setInsert blt k rest
    else k2 :: rest

end Containers

/-- Termination measure for the type work-list: counts the wrapper depth of
vectors/references (struct type arguments are never pushed, so they count 1). -/
def MoveType.measure : MoveType → Nat
  | .vector t => t.measure + 1
  | .reference _ t => t.measure + 1
  | _ => 1

theorem MoveType.measure_pos : ∀ t : MoveType, 0 < t.measure := by
  intro t
  cases t <;> simp [MoveType.measure]

/-- The inner `while let Some(typ) = types_to_resolve.pop()` loop of
`parse_module`: drains the work-list `stack`, skipping types already in the
seen set, pushing the payload of vectors/references, and recording the module
of any struct reference into the accumulated `BTreeSet` of modules to retrieve. -/
def resolveTypes (seen : List MoveType) (stack : List MoveType) (acc : List ModuleId) :
    List ModuleId :=
  match stack with
  | [] => acc
  | typ :: rest =>
    if typ ∈ seen then resolveTypes seen rest acc
    else
      match typ with
      | .vector t => resolveTypes (typ :: seen) (t :: rest) acc
      | .reference _ t => resolveTypes (typ :: seen) (t :: rest) acc
      | .struct a m _ _ => resolveTypes (typ :: seen) rest (setInsert ModuleId.blt ⟨a, m⟩ acc)
      | _ => resolveTypes (typ :: seen) rest acc
termination_by (stack.map MoveType.measure).sum
decreasing_by
  all_goals simp only [List.map_cons, List.sum_cons, MoveType.measure]
  all_goals first
  | omega
  | (have h := MoveType.measure_pos typ; omega)
  | (rename_i u; have h := MoveType.measure_pos u; omega)

/-- A struct's field-name → type map (innermost `BTreeMap<Identifier, MoveType>`). -/
abbrev FieldMap := List (Nat × MoveType)

/-- A module's struct-name → field map (`BTreeMap<Identifier, BTreeMap<..>>`). -/
abbrev StructsInfo := List (Nat × FieldMap)

/-- The Field Type Index: module → struct → field → type. -/
abbrev FieldInfo := List (ModuleId × StructsInfo)

/-- The builder's `modules` map: `BTreeMap<ModuleId, MoveModule>`. -/
abbrev ModMap := List (ModuleId × MoveModule)

/-- One step of the field loop in `parse_module`:
`structs_info.entry(struc.name).or_insert_with(BTreeMap::new).insert(field.name, field.typ)`. -/
def insertFieldInfo (sname : Nat) (si : StructsInfo) (f : MoveStructField) : StructsInfo :=
  mapInsert Nat.blt sname
    (mapInsert Nat.blt f.name f.typ ((mapLookup sname si).getD [])) si

/-- The `for field in struc.fields` loop of `parse_module`, restricted to its
effect on `structs_info`: record every field of the struct in the struct's
field map. -/
def parseStructFields (si : StructsInfo) (struc : MoveStruct) : StructsInfo :=
  struc.fields.foldl ( insertFieldInfo struc.name) si

/-- The per-struct type traversal of `parse_module`: the work-list is seeded
with the field types in declaration order (popped last-first); when recursion
is enabled it is drained by `resolveTypes`, otherwise it is dropped unused. -/
def parseStructTypes (recurse : Bool) (struc : MoveStruct) (acc : List ModuleId) :
    List ModuleId :=
  if recurse then
    resolveTypes [] ((struc.fields.map MoveStructField.typ).reverse) acc
  else acc

/-- `TypeAccessorBuilder::parse_module`: for each struct in the module, record
its fields into `structs_info` and (when recursion is enabled) collect the
modules referenced from its field types into `modules_to_retrieve`. -/
def parse_module (recurse : Bool) (module : MoveModule) : StructsInfo × List ModuleId :=
  module.structs.foldl
    (fun p struc => (parseStructFields p.1 struc, parseStructTypes recurse struc p.2))
    ([], [])

/-- Pure model of the external collaborators behind `retrieve_module`:
`get_account_module_bcs` (fetch raw bytes, abstracted as a `Nat` token) and
`CompiledModule::deserialize` (decode bytes into a `MoveModule`).
`none` models the fallible call failing. -/
structure ModuleSource where
  fetch : ModuleId → Option Nat
  decode : Nat → Option MoveModule

/-- The error taxonomy of `build`: the two `bail!` validations plus the two
`context`-wrapped failures of `retrieve_module`, each carrying the offending
module identifier. -/
inductive BuildError where
  | emptyInput : BuildError
  | missingSource : BuildError
  | moduleFetchFailed (id : ModuleId) : BuildError
  | moduleDecodeFailed (id : ModuleId) : BuildError
deriving DecidableEq

/-- How a (sub)computation of `build` ends: normally, with an error return,
or with a panic (the `unwrap` of an absent rest client). -/
inductive Outcome (α : Type) where
  | ok (a : α) : Outcome α
  | err (e : BuildError) : Outcome α
  | panicked : Outcome α
deriving DecidableEq

/-- `TypeAccessorBuilder::retrieve_module`: `self.rest_client.as_ref().unwrap()`
followed by the fetch and the deserialization, each fallible. -/
def retrieve_module (client : Option ModuleSource) (id : ModuleId) : Outcome MoveModule :=
  match client with
  | none => .panicked
  | some src =>
    match src.fetch id with
    | none => .err (.moduleFetchFailed id)
    | some bytes =>
      match src.decode bytes with
      | none => .err (.moduleDecodeFailed id)
      | some m => .ok m

/-- The retrieval phase of `build`:
`while let Some(module_id) = self.modules_to_retrieve.pop_first()`, skipping
identifiers already in `self.modules`, otherwise fetching and inserting.
The first component is the trace of identifiers for which the module source
was actually invoked, in order. -/
def retrievePhase (client : Option ModuleSource) :
    List ModuleId → ModMap → List ModuleId × Outcome ModMap
  | [], modules => ([], .ok modules)
  | id :: rest, modules =>
    if containsKey id modules then retrievePhase client rest modules
    else
      match retrieve_module client id with
      | .panicked => ([], .panicked)
      | .err e => ([id], .err e)
      | .ok m =>
        let p := retrievePhase client rest (mapInsert ModuleId.blt id m modules)
        (id :: p.1, p.2)

/-- The parsing phase of `build`:
`while let Some((module_id, module)) = self.modules.pop_first()`, inserting the
parsed struct info into `field_info` and extending `modules_to_retrieve`. -/
def parsePhase (recurse : Bool) :
    ModMap → FieldInfo → List ModuleId → FieldInfo × List ModuleId
  | [], field_info, toRetrieve => (field_info, toRetrieve)
  | (id, module) :: rest, field_info, toRetrieve =>
    let p := parse_module recurse module
    parsePhase recurse rest (mapInsert ModuleId.blt id p.1 field_info)
      (p.2.foldl (fun s i => setInsert ModuleId.blt i s) toRetrieve)

/-- The finished, immutable Field Type Index (`TypeAccessor`). -/
structure TypeAccessor where
  field_info : FieldInfo
deriving DecidableEq

/-- The `loop` of `build`, with explicit fuel counting outer iterations:
retrieval is prioritized over parsing; when both the frontier and module queue
are empty the accumulated `field_info` is returned. The first component is the
concatenated fetch trace; a `none` second component means the fuel ran out
(the loop had not terminated after `fuel` iterations). -/
def buildLoop (recurse : Bool) (client : Option ModuleSource) :
    Nat → List ModuleId → ModMap → FieldInfo → List ModuleId × Option (Outcome TypeAccessor)
  | 0, _, _, _ => ([], none)
  | fuel + 1, toRetrieve, modules, field_info =>
    if !toRetrieve.isEmpty then
      match retrievePhase client toRetrieve modules with
      | (tr, .ok modules2) =>
        let p := buildLoop recurse client fuel [] modules2 field_info
        (tr ++ p.1, p.2)
      | (tr, .err e) => (tr, some (.err e))
      | (tr, .panicked) => (tr, some .panicked)
    else if !modules.isEmpty then
      let p := parsePhase recurse modules field_info toRetrieve
      buildLoop recurse client fuel p.2 [] p.1
    else
      ([], some (.ok ⟨field_info⟩))

/-- The builder (`TypeAccessorBuilder`): frontier of modules to retrieve,
already-known modules, the recursion flag, and the optional client handle. -/
structure TypeAccessorBuilder where
  modules_to_retrieve : List ModuleId
  modules : ModMap
  recurse : Bool
  rest_client : Option ModuleSource

/-- `TypeAccessorBuilder::new`. -/
def TypeAccessorBuilder.new : TypeAccessorBuilder :=
  { modules_to_retrieve := [], modules := [], recurse := true, rest_client := none }

/-- `TypeAccessorBuilder::rest_client`: attach the client used for lookups. -/
def TypeAccessorBuilder.withRestClient (b : TypeAccessorBuilder) (c : ModuleSource) :
    TypeAccessorBuilder :=
  { b with rest_client := some c }

/-- `TypeAccessorBuilder::lookup_modules`: extend the frontier. -/
def TypeAccessorBuilder.lookup_modules (b : TypeAccessorBuilder) (ids : List ModuleId) :
    TypeAccessorBuilder :=
  { b with modules_to_retrieve :=
      ids.foldl (fun s i => setInsert ModuleId.blt i s) b.modules_to_retrieve }

/-- `TypeAccessorBuilder::lookup_module`. -/
def TypeAccessorBuilder.lookup_module (b : TypeAccessorBuilder) (id : ModuleId) :
    TypeAccessorBuilder :=
  b.lookup_modules [id]

/-- `TypeAccessorBuilder::add_modules`: insert already-known modules, keyed by
their own (address, name). -/
def TypeAccessorBuilder.add_modules (b : TypeAccessorBuilder) (ms : List MoveModule) :
    TypeAccessorBuilder :=
  { b with modules :=
      ms.foldl (fun mm m => mapInsert ModuleId.blt ⟨m.address, m.name⟩ m mm) b.modules }

/-- `TypeAccessorBuilder::add_module`. -/
def TypeAccessorBuilder.add_module (b : TypeAccessorBuilder) (m : MoveModule) :
    TypeAccessorBuilder :=
  b.add_modules [m]

/-- `TypeAccessorBuilder::do_not_recurse`. -/
def TypeAccessorBuilder.do_not_recurse (b : TypeAccessorBuilder) : TypeAccessorBuilder :=
  { b with recurse := false }

/-- `TypeAccessorBuilder::build`: the two input validations followed by the
fixpoint loop. -/
def TypeAccessorBuilder.build (b : TypeAccessorBuilder) (fuel : Nat) :
    List ModuleId × Option (Outcome TypeAccessor) :=
  if b.modules_to_retrieve.isEmpty && b.modules.isEmpty then
    ([], some (.err .emptyInput))
  else if !b.modules_to_retrieve.isEmpty && b.rest_client.isNone then
    ([], some (.err .missingSource))
  else
    buildLoop b.recurse b.rest_client fuel b.modules_to_retrieve b.modules []

/-!
Concrete test-fixture modules, sources and builders used to settle the
individual claims on explicit inputs.
-/

def idA : ModuleId := ⟨0, 0⟩
def idB : ModuleId := ⟨0, 1⟩
def idC : ModuleId := ⟨0, 2⟩
def idD : ModuleId := ⟨0, 3⟩

-- C1: self-referential module A: struct S { f: &vector<A::S> }
def modC1A : MoveModule :=
  ⟨0, 0, [⟨0, [⟨0, .reference true (.vector (.struct 0 0 0 []))⟩]⟩]⟩

def srcC1 : ModuleSource :=
  ⟨fun id => if id = idA then some 0 else none, fun _ => some modC1A⟩

def builderC1 : TypeAccessorBuilder :=
  (TypeAccessorBuilder.new.add_module modC1A).withRestClient srcC1

-- C2: lookup {A, D}; A no structs; D refs A.
def modC2A : MoveModule := ⟨0, 0, []⟩
def modC2D : MoveModule := ⟨0, 3, [⟨0, [⟨0, .struct 0 0 0 []⟩]⟩]⟩
def srcC2 : ModuleSource :=
  ⟨fun id => if id = idA then some 0 else if id = idD then some 1 else none,
   fun b => if b = 0 then some modC2A else some modC2D⟩
def builderC2 : TypeAccessorBuilder :=
  (TypeAccessorBuilder.new.lookup_modules [idA, idD]).withRestClient srcC2

-- C3: seeded A and B, B refs A
def modC3A : MoveModule := ⟨0, 0, [⟨0, [⟨0, .u8⟩]⟩]⟩
def modC3B : MoveModule := ⟨0, 1, [⟨1, [⟨0, .struct 0 0 0 []⟩]⟩]⟩
def srcC3 : ModuleSource :=
  ⟨fun id => if id = idA then some 0 else none, fun _ => some modC3A⟩
def builderC3 : TypeAccessorBuilder :=
  (TypeAccessorBuilder.new.add_modules [modC3A, modC3B]).withRestClient srcC3

-- C4
def modC4A : MoveModule := ⟨0, 0, [⟨0, [⟨0, .struct 0 1 1 []⟩]⟩]⟩
def modC4B : MoveModule := ⟨0, 1, [⟨1, [⟨1, .u64⟩]⟩]⟩
def srcC4 : ModuleSource :=
  ⟨fun id => if id = idB then some 1 else none,
   fun b => if b = 1 then some modC4B else none⟩
def builderC4off : TypeAccessorBuilder :=
  (TypeAccessorBuilder.new.add_module modC4A).do_not_recurse
def builderC4on : TypeAccessorBuilder :=
  (TypeAccessorBuilder.new.add_module modC4A).withRestClient srcC4

-- C5: lookup A; A refs B; fetch B fails / decode B fails
def srcC5fetch : ModuleSource :=
  ⟨fun id => if id = idA then some 0 else none,
   fun b => if b = 0 then some modC4A else none⟩
def srcC5decode : ModuleSource :=
  ⟨fun id => if id = idA then some 0 else if id = idB then some 1 else none,
   fun b => if b = 0 then some modC4A else none⟩
def builderC5fetch : TypeAccessorBuilder :=
  (TypeAccessorBuilder.new.lookup_module idA).withRestClient srcC5fetch
def builderC5decode : TypeAccessorBuilder :=
  (TypeAccessorBuilder.new.lookup_module idA).withRestClient srcC5decode

-- C10: seeded A refs B, no client, recurse
def builderC10 : TypeAccessorBuilder := TypeAccessorBuilder.new.add_module modC4A

-- C6 counterexample: zero-field struct gets no entry
def modC6 : MoveModule := ⟨0, 0, [⟨5, []⟩]⟩

-- C8: lookup {B, D}; B refs C; trace [B, D, C] not ascending
def modC8B : MoveModule := ⟨0, 1, [⟨0, [⟨0, .struct 0 2 0 []⟩]⟩]⟩
def modC8C : MoveModule := ⟨0, 2, []⟩
def modC8D : MoveModule := ⟨0, 3, []⟩
def srcC8 : ModuleSource :=
  ⟨fun id => if id = idB then some 1 else if id = idC then some 2
             else if id = idD then some 3 else none,
   fun b => if b = 1 then some modC8B else if b = 2 then some modC8C else some modC8D⟩
def builderC8 : TypeAccessorBuilder :=
  (TypeAccessorBuilder.new.lookup_modules [idB, idD]).withRestClient srcC8

/-!
Order-theoretic facts about the key comparison `ModuleId.blt` and the
sorted-container operations.
-/

theorem ModuleId.blt_iff (a b : ModuleId) :
    ModuleId.blt a b = true ↔
      a.address < b.address ∨ (a.address = b.address ∧ a.name < b.name) := by
  simp [ModuleId.blt, Nat.blt_eq, Bool.or_eq_true, Bool.and_eq_true]

theorem ModuleId.blt_irrefl (a : ModuleId) : ModuleId.blt a a = false := by
  cases h : ModuleId.blt a a
  · rfl
  · rw [ModuleId.blt_iff] at h
    omega

theorem ModuleId.blt_trans {a b c : ModuleId} (h1 : ModuleId.blt a b = true)
    (h2 : ModuleId.blt b c = true) : ModuleId.blt a c = true := by
  rw [ModuleId.blt_iff] at h1 h2 ⊢
  omega

theorem ModuleId.eq_of_not_blt {a b : ModuleId} (h1 : ModuleId.blt a b = false)
    (h2 : ModuleId.blt b a = false) : a = b := by
  rw [← Bool.not_eq_true, ModuleId.blt_iff] at h1 h2
  cases a
  cases b
  simp only [ModuleId.mk.injEq]
  push_neg at h1 h2
  simp only at h1 h2
  omega

theorem Nat.blt_irrefl2 (a : Nat) : Nat.blt a a = false := by
  cases h : Nat.blt a a
  · rfl
  · rw [Nat.blt_eq] at h
    omega

theorem Nat.blt_trans2 {a b c : Nat} (h1 : Nat.blt a b = true)
    (h2 : Nat.blt b c = true) : Nat.blt a c = true := by
  rw [Nat.blt_eq] at h1 h2 ⊢
  omega

theorem Nat.eq_of_not_blt2 {a b : Nat} (h1 : Nat.blt a b = false)
    (h2 : Nat.blt b a = false) : a = b := by
  rw [← Bool.not_eq_true, Nat.blt_eq] at h1 h2
  omega

section ContainerLemmas

variable {κ : Type} {α : Type} {blt : κ → κ → Bool}

theorem mem_of_mem_mapInsert {k : κ} {v : α} {l : List (κ × α)} :
    ∀ p ∈ mapInsert blt k v l, p = (k, v) ∨ p ∈ l := by
  induction l with
  | nil => simp [mapInsert]
  | cons hd tl ih =>
    obtain ⟨k2, v2⟩ := hd
    intro p hp
    simp only [mapInsert] at hp
    by_cases h1 : blt k k2 = true
    · rw [if_pos h1] at hp
      simp only [List.mem_cons] at hp
      rcases hp with h | h | h
      · exact Or.inl h
      · exact Or.inr (by simp [h])
      · exact Or.inr (by simp [h])
    · rw [if_neg (by simp [h1])] at hp
      by_cases h2 : blt k2 k = true
      · rw [if_pos h2] at hp
        simp only [List.mem_cons] at hp
        rcases hp with h | h
        · exact Or.inr (by simp [h])
        · rcases ih p h with h3 | h3
          · exact Or.inl h3
          · exact Or.inr (by simp [h3])
      · rw [if_neg (by simp [h2])] at hp
        simp only [List.mem_cons] at hp
        rcases hp with h | h
        · exact Or.inl h
        · exact Or.inr (by simp [h])

theorem mapInsert_pairwise (blt : κ → κ → Bool)
    (htrans : ∀ a b c : κ, blt a b = true → blt b c = true → blt a c = true)
    (htot : ∀ a b : κ, blt a b = false → blt b a = false → a = b)
    {k : κ} {v : α} {l : List (κ × α)}
    (hl : l.Pairwise (fun p q => blt p.1 q.1 = true)) :
    (mapInsert blt k v l).Pairwise (fun p q => blt p.1 q.1 = true) := by
  induction l with
  | nil => simp [mapInsert]
  | cons hd tl ih =>
    obtain ⟨k2, v2⟩ := hd
    rw [List.pairwise_cons] at hl
    obtain ⟨hhd, htl⟩ := hl
    simp only [mapInsert]
    by_cases h1 : blt k k2 = true
    · rw [if_pos h1]
      refine List.Pairwise.cons ?_ (List.Pairwise.cons hhd htl)
      intro p hp
      simp only [List.mem_cons] at hp
      rcases hp with h | h
      · rw [h]
        exact h1
      · exact htrans _ _ _ h1 (hhd p h)
    · rw [if_neg (by simp [h1])]
      by_cases h2 : blt k2 k = true
      · rw [if_pos h2]
        refine List.Pairwise.cons ?_ (ih htl)
        intro p hp
        rcases mem_of_mem_mapInsert p hp with h | h
        · rw [h]
          exact h2
        · exact hhd p h
      · rw [if_neg (by simp [h2])]
        have hk : k = k2 := htot k k2 (by simpa using h1) (by simpa using h2)
        subst hk
        exact List.Pairwise.cons hhd htl

theorem mapLookup_mapInsert_self [DecidableEq κ]
    (hirr : ∀ a : κ, blt a a = false)
    {k : κ} {v : α} {l : List (κ × α)} :
    mapLookup k (mapInsert blt k v l) = some v := by
  induction l with
  | nil => simp [mapInsert, mapLookup]
  | cons hd tl ih =>
    obtain ⟨k2, v2⟩ := hd
    simp only [mapInsert]
    by_cases h1 : blt k k2 = true
    · rw [if_pos h1]
      simp [mapLookup]
    · rw [if_neg (by simp [h1])]
      by_cases h2 : blt k2 k = true
      · rw [if_pos h2]
        have hne : k ≠ k2 := by
          intro he
          rw [he, hirr k2] at h2
          exact Bool.false_ne_true h2
        simp [mapLookup, hne, ih]
      · rw [if_neg (by simp [h2])]
        simp [mapLookup]

theorem mapLookup_mapInsert_ne [DecidableEq κ]
    (htot : ∀ a b : κ, blt a b = false → blt b a = false → a = b)
    {k k2 : κ} {v : α} {l : List (κ × α)} (hne : k2 ≠ k) :
    mapLookup k2 (mapInsert blt k v l) = mapLookup k2 l := by
  induction l with
  | nil => simp [mapInsert, mapLookup, hne]
  | cons hd tl ih =>
    obtain ⟨k3, v3⟩ := hd
    simp only [mapInsert]
    by_cases h1 : blt k k3 = true
    · rw [if_pos h1]
      simp [mapLookup, hne]
    · rw [if_neg (by simp [h1])]
      by_cases h2 : blt k3 k = true
      · rw [if_pos h2]
        simp only [mapLookup]
        by_cases h3 : k2 = k3
        · simp [h3]
        · simp [h3, ih]
      · rw [if_neg (by simp [h2])]
        have hk : k = k3 := htot k k3 (by simpa using h1) (by simpa using h2)
        subst hk
        simp [mapLookup, hne]

theorem mem_setInsert_iff
    (htot : ∀ a b : κ, blt a b = false → blt b a = false → a = b)
    {k x : κ} {l : List κ} :
    x ∈ setInsert blt k l ↔ x = k ∨ x ∈ l := by
  induction l with
  | nil => simp [setInsert]
  | cons k2 tl ih =>
    simp only [setInsert]
    by_cases h1 : blt k k2 = true
    · rw [if_pos h1]
      simp only [List.mem_cons]
      try tauto
    · rw [if_neg (by simp [h1])]
      by_cases h2 : blt k2 k = true
      · rw [if_pos h2]
        simp only [List.mem_cons, ih]
        try tauto
      · rw [if_neg (by simp [h2])]
        have hk : k = k2 := htot k k2 (by simpa using h1) (by simpa using h2)
        subst hk
        simp only [List.mem_cons]
        tauto

theorem setInsert_pairwise (blt : κ → κ → Bool)
    (htrans : ∀ a b c : κ, blt a b = true → blt b c = true → blt a c = true)
    (htot : ∀ a b : κ, blt a b = false → blt b a = false → a = b)
    {k : κ} {l : List κ}
    (hl : l.Pairwise (fun a b => blt a b = true)) :
    (setInsert blt k l).Pairwise (fun a b => blt a b = true) := by
  induction l with
  | nil => simp [setInsert]
  | cons k2 tl ih =>
    rw [List.pairwise_cons] at hl
    obtain ⟨hhd, htl⟩ := hl
    simp only [setInsert]
    by_cases h1 : blt k k2 = true
    · rw [if_pos h1]
      refine List.Pairwise.cons ?_ (List.Pairwise.cons hhd htl)
      intro p hp
      simp only [List.mem_cons] at hp
      rcases hp with h | h
      · rw [h]
        exact h1
      · exact htrans _ _ _ h1 (hhd p h)
    · rw [if_neg (by simp [h1])]
      by_cases h2 : blt k2 k = true
      · rw [if_pos h2]
        refine List.Pairwise.cons ?_ (ih htl)
        intro p hp
        rcases (mem_setInsert_iff htot).1 hp with h | h
        · rw [h]
          exact h2
        · exact hhd p h
      · rw [if_neg (by simp [h2])]
        exact List.Pairwise.cons hhd htl

theorem sorted_eq_of_mem_iff (blt : κ → κ → Bool)
    (hirr : ∀ a : κ, blt a a = false)
    (htrans : ∀ a b c : κ, blt a b = true → blt b c = true → blt a c = true)
    {l1 l2 : List κ}
    (h1 : l1.Pairwise (fun a b => blt a b = true))
    (h2 : l2.Pairwise (fun a b => blt a b = true))
    (hmem : ∀ x, x ∈ l1 ↔ x ∈ l2) : l1 = l2 := by
  have hasymm : ∀ x y : κ, blt x y = true → blt y x = true → False := by
    intro x y hxy hyx
    have h := htrans x y x hxy hyx
    rw [hirr x] at h
    exact Bool.false_ne_true h
  induction l1 generalizing l2 with
  | nil =>
    cases l2 with
    | nil => rfl
    | cons b tl2 => exact absurd ((hmem b).2 (by simp)) (by simp)
  | cons a tl1 ih =>
    cases l2 with
    | nil => exact absurd ((hmem a).1 (by simp)) (by simp)
    | cons b tl2 =>
      rw [List.pairwise_cons] at h1 h2
      obtain ⟨ha, htl1⟩ := h1
      obtain ⟨hb, htl2⟩ := h2
      have hma : a = b ∨ a ∈ tl2 := by simpa using (hmem a).1 (by simp)
      have hmb : b = a ∨ b ∈ tl1 := by simpa using (hmem b).2 (by simp)
      have hab : a = b := by
        rcases hma with h | h
        · exact h
        · rcases hmb with h3 | h3
          · exact h3.symm
          · exact (hasymm a b (ha b h3) (hb a h)).elim
      subst hab
      have htail : ∀ x, x ∈ tl1 ↔ x ∈ tl2 := by
        intro x
        constructor
        · intro hx
          have hx2 : x = a ∨ x ∈ tl2 := by simpa using (hmem x).1 (by simp [hx])
          rcases hx2 with h | h
          · subst h
            exact absurd (ha x hx) (by simp [hirr x])
          · exact h
        · intro hx
          have hx2 : x = a ∨ x ∈ tl1 := by simpa using (hmem x).2 (by simp [hx])
          rcases hx2 with h | h
          · subst h
            exact absurd (hb x hx) (by simp [hirr x])
          · exact h
      rw [ih htl1 htl2 htail]

end ContainerLemmas

/-!
Claim theorems.
-/

theorem c1_loop_diverges (n : Nat) :
    (buildLoop true (some srcC1) n []
      [(idA, modC1A)]
      [(idA, [(0, [(0, .reference true (.vector (.struct 0 0 0 [])))])])]).2 = none ∧
    (buildLoop true (some srcC1) n [idA] []
      [(idA, [(0, [(0, .reference true (.vector (.struct 0 0 0 [])))])])]).2 = none := by
  induction n with
  | zero => constructor <;> simp [buildLoop]
  | succ n ih =>
    constructor
    · have h2 := ih.2
      simp only [buildLoop]
      simp +decide [parsePhase, parse_module, parseStructFields, parseStructTypes, insertFieldInfo, resolveTypes, mapInsert,
        mapLookup, setInsert, containsKey, ModuleId.blt, modC1A, idA]
      exact h2
    · have h1 := ih.1
      simp only [buildLoop]
      simp +decide [retrievePhase, retrieve_module, containsKey, mapLookup, mapInsert,
        srcC1, ModuleId.blt, idA, modC1A]
      exact h1

/-- C1: the claim that a build seeded with a self-referential module `A`
(struct `S` with its single field of type reference-to-vector-of-`A::S`)
terminates is FALSE on the code: because `build` only skips identifiers that
are still in `self.modules` (the `modules_processed` guard is commented out),
module `A` is re-added to the frontier after being parsed, re-fetched and
re-parsed forever. For every fuel bound the loop is still running. -/
theorem c1_self_referential_build_never_terminates (fuel : Nat) :
    (builderC1.build fuel).2 = none := by
  cases fuel with
  | zero =>
    simp +decide [TypeAccessorBuilder.build, builderC1, TypeAccessorBuilder.new,
      TypeAccessorBuilder.add_module, TypeAccessorBuilder.add_modules,
      TypeAccessorBuilder.withRestClient, mapInsert, modC1A, buildLoop]
  | succ n =>
    have h := (c1_loop_diverges n).2
    simp +decide [TypeAccessorBuilder.build, builderC1, TypeAccessorBuilder.new,
      TypeAccessorBuilder.add_module, TypeAccessorBuilder.add_modules,
      TypeAccessorBuilder.withRestClient, mapInsert, ModuleId.blt, modC1A, idA, buildLoop,
      parsePhase, parse_module, parseStructFields, parseStructTypes, insertFieldInfo, resolveTypes, mapLookup, setInsert,
      containsKey]
    exact h

/-- C2: the claim that each module identifier is fetched at most once per build
is FALSE on the code: with seed lookups `{A, D}` where `D`'s struct references
`A`, the module source is invoked for `A` twice (trace `[A, D, A]`), because
after `A` has been parsed and popped from `self.modules` nothing records that
it was already indexed. -/
theorem c2_module_fetched_twice :
    builderC2.build 10 =
      ([idA, idD, idA],
        some (.ok ⟨[(idA, []), (idD, [(0, [(0, .struct 0 0 0 [])])])]⟩)) ∧
    (builderC2.build 10).1.count idA = 2 := by
  constructor <;>
    simp +decide [TypeAccessorBuilder.build, builderC2, TypeAccessorBuilder.new,
      TypeAccessorBuilder.lookup_modules, TypeAccessorBuilder.withRestClient, buildLoop,
      retrievePhase, parsePhase, parse_module, parseStructFields, parseStructTypes, insertFieldInfo, resolveTypes,
      retrieve_module, mapInsert, mapLookup, containsKey, setInsert, ModuleId.blt,
      srcC2, modC2A, modC2D, idA, idD]

/-- C3: the claim that a caller-seeded module is never fetched is FALSE on the
code: seeding modules `A` and `B` where `B`'s struct references `A`, the build
re-fetches the pre-seeded `A` (trace `[A]`, not `[]`), because after the parse
phase `A` is no longer in `self.modules` and nothing records it was seeded. -/
theorem c3_preseeded_module_refetched :
    builderC3.build 10 =
      ([idA],
        some (.ok ⟨[(idA, [(0, [(0, .u8)])]),
                    (idB, [(1, [(0, .struct 0 0 0 [])])])]⟩)) ∧
    (builderC3.build 10).1 ≠ [] := by
  constructor <;>
    simp +decide [TypeAccessorBuilder.build, builderC3, TypeAccessorBuilder.new,
      TypeAccessorBuilder.add_modules, TypeAccessorBuilder.withRestClient, buildLoop,
      retrievePhase, parsePhase, parse_module, parseStructFields, parseStructTypes, insertFieldInfo, resolveTypes,
      retrieve_module, mapInsert, mapLookup, containsKey, setInsert, ModuleId.blt,
      srcC3, modC3A, modC3B, idA, idB]

theorem parse_module_off_aux (l : List MoveStruct) (p : StructsInfo × List ModuleId) :
    (l.foldl
      (fun p struc => (parseStructFields p.1 struc, parseStructTypes false struc p.2)) p).2
      = p.2 := by
  induction l generalizing p with
  | nil => rfl
  | cons s l ih => simpa [parseStructTypes] using ih _

/-- C4: with recursion disabled the Walker never adds newly discovered module
identifiers to the frontier (for every module, `parse_module` returns an empty
retrieval set), so building from seed `A` with `S{f: B::T}` yields an index
containing only `A`'s structs with no fetch; with recursion enabled the index
contains both `A::S` and `B::T` and `B` is fetched exactly once. -/
theorem c4_recursion_boundary :
    (∀ m : MoveModule, (parse_module false m).2 = []) ∧
    builderC4off.build 10 =
      ([], some (.ok ⟨[(idA, [(0, [(0, .struct 0 1 1 [])])])]⟩)) ∧
    builderC4on.build 10 =
      ([idB], some (.ok ⟨[(idA, [(0, [(0, .struct 0 1 1 [])])]),
                          (idB, [(1, [(1, .u64)])])]⟩)) ∧
    (builderC4on.build 10).1.count idB = 1 := by
  refine ⟨?_, ?_, ?_, ?_⟩
  · intro m
    simpa [parse_module] using parse_module_off_aux m.structs ([], [])

  all_goals
    simp +decide [TypeAccessorBuilder.build, builderC4off, builderC4on,
      TypeAccessorBuilder.new, TypeAccessorBuilder.add_module, TypeAccessorBuilder.add_modules,
      TypeAccessorBuilder.withRestClient, TypeAccessorBuilder.do_not_recurse, buildLoop,
      retrievePhase, parsePhase, parse_module, parseStructFields, parseStructTypes, insertFieldInfo, resolveTypes,
      retrieve_module, mapInsert, mapLookup, containsKey, setInsert, ModuleId.blt,
      srcC4, modC4A, modC4B, idA, idB]

/-- C5: when fetching (respectively decoding) the transitively discovered
module `B` fails, the whole build aborts with `ModuleFetchFailed`
(respectively `ModuleDecodeFailed`) carrying `B`'s identifier and returns no
Field Type Index, even though seed `A` was fetched and parsed successfully
(its fetch appears first in the trace). -/
theorem c5_transitive_failure_aborts_build :
    builderC5fetch.build 10 = ([idA, idB], some (.err (.moduleFetchFailed idB))) ∧
    builderC5decode.build 10 = ([idA, idB], some (.err (.moduleDecodeFailed idB))) := by
  constructor <;>
    simp +decide [TypeAccessorBuilder.build, builderC5fetch, builderC5decode,
      TypeAccessorBuilder.new, TypeAccessorBuilder.lookup_module,
      TypeAccessorBuilder.lookup_modules, TypeAccessorBuilder.withRestClient, buildLoop,
      retrievePhase, parsePhase, parse_module, parseStructFields, parseStructTypes, insertFieldInfo, resolveTypes,
      retrieve_module, mapInsert, mapLookup, containsKey, setInsert, ModuleId.blt,
      srcC5fetch, srcC5decode, modC4A, idA, idB]

/-- C10: with recursion enabled, no rest client attached, and a caller-seeded
module whose struct field references a module not supplied by the caller, the
build panics on the unguarded `unwrap` in `retrieve_module` (the `MissingSource`
validation only inspects the frontier at the start of `build`, when it is still
empty); it never returns a `MissingSource` error at any fuel. -/
theorem c10_missing_client_panics :
    builderC10.build 10 = ([], some .panicked) ∧
    ∀ fuel : Nat, (builderC10.build fuel).2 ≠ some (.err .missingSource) := by
  constructor
  · simp +decide [TypeAccessorBuilder.build, builderC10, TypeAccessorBuilder.new,
      TypeAccessorBuilder.add_module, TypeAccessorBuilder.add_modules, buildLoop,
      retrievePhase, parsePhase, parse_module, parseStructFields, parseStructTypes, insertFieldInfo, resolveTypes,
      retrieve_module, mapInsert, mapLookup, containsKey, setInsert, ModuleId.blt,
      modC4A, idA, idB]
  · intro fuel
    match fuel with
    | 0 =>
      simp +decide [TypeAccessorBuilder.build, builderC10, TypeAccessorBuilder.new,
        TypeAccessorBuilder.add_module, TypeAccessorBuilder.add_modules, buildLoop,
        mapInsert, modC4A]
    | 1 =>
      simp +decide [TypeAccessorBuilder.build, builderC10, TypeAccessorBuilder.new,
        TypeAccessorBuilder.add_module, TypeAccessorBuilder.add_modules, buildLoop,
        retrievePhase, parsePhase, parse_module, parseStructFields, parseStructTypes, insertFieldInfo, resolveTypes,
        retrieve_module, mapInsert, mapLookup, containsKey, setInsert, ModuleId.blt,
        modC4A, idA, idB]
    | n + 2 =>
      simp +decide [TypeAccessorBuilder.build, builderC10, TypeAccessorBuilder.new,
        TypeAccessorBuilder.add_module, TypeAccessorBuilder.add_modules, buildLoop,
        retrievePhase, parsePhase, parse_module, parseStructFields, parseStructTypes, insertFieldInfo, resolveTypes,
        retrieve_module, mapInsert, mapLookup, containsKey, setInsert, ModuleId.blt,
        modC4A, idA, idB]

/-- C8 counterexample: fetches are NOT ascending over the whole build. With
seed lookups `{B, D}` where `B`'s struct references `C` (`B < C < D`), the
build's fetch trace is `[B, D, C]`: `C` is fetched after `D` although
`C < D`. -/
theorem c8_fetch_order_not_ascending :
    builderC8.build 10 =
      ([idB, idD, idC],
        some (.ok ⟨[(idB, [(0, [(0, .struct 0 2 0 [])])]), (idC, []), (idD, [])]⟩)) ∧
    ModuleId.blt idC idD = true := by
  constructor <;>
    simp +decide [TypeAccessorBuilder.build, builderC8, TypeAccessorBuilder.new,
      TypeAccessorBuilder.lookup_modules, TypeAccessorBuilder.withRestClient, buildLoop,
      retrievePhase, parsePhase, parse_module, parseStructFields, parseStructTypes, insertFieldInfo, resolveTypes,
      retrieve_module, mapInsert, mapLookup, containsKey, setInsert, ModuleId.blt,
      srcC8, modC8B, modC8C, modC8D, idB, idC, idD]

theorem retrievePhase_trace_sublist (client : Option ModuleSource) :
    ∀ (toRet : List ModuleId) (mods : ModMap),
      (retrievePhase client toRet mods).1.Sublist toRet := by
  intro toRet
  induction toRet with
  | nil => intro mods; simp [retrievePhase]
  | cons id rest ih =>
    intro mods
    simp only [retrievePhase]
    by_cases h1 : containsKey id mods = true
    · rw [if_pos h1]
      exact (ih mods).trans (List.sublist_cons_self id rest)
    · rw [if_neg (by simp [h1])]
      cases retrieve_module client id with
      | panicked => simp
      | err e => simp
      | ok m => exact (ih (mapInsert ModuleId.blt id m mods)).cons₂ id

/-- C8 (amended): within a single retrieval phase — one drain of the frontier,
which is what the sorted `BTreeSet` hands to the fetch loop — the identifiers
actually fetched are in strictly ascending order; the original claim fails
across phases (see the counterexample) because a later phase may fetch an
identifier smaller than one fetched in an earlier phase. -/
theorem c8_retrieve_phase_fetches_ascending (client : Option ModuleSource)
    (toRet : List ModuleId) (mods : ModMap)
    (hsorted : toRet.Pairwise (fun a b => ModuleId.blt a b = true)) :
    (retrievePhase client toRet mods).1.Pairwise (fun a b => ModuleId.blt a b = true) :=
  hsorted.sublist (retrievePhase_trace_sublist client toRet mods)

/-- Witness for the amended C8 theorem at a concrete input. -/
theorem c8_retrieve_phase_fetches_ascending_witness :
    ([idB, idD].Pairwise (fun a b => ModuleId.blt a b = true)) ∧
    (retrievePhase (some srcC8) [idB, idD] []).1.Pairwise
      (fun a b => ModuleId.blt a b = true) :=
  ⟨by simp +decide [idB, idD, ModuleId.blt],
   c8_retrieve_phase_fetches_ascending (some srcC8) [idB, idD] []
     (by simp +decide [idB, idD, ModuleId.blt])⟩

/-- C6 counterexample: a struct declaring zero fields does NOT get an (empty)
entry in the walker's output: the `structs_info.entry(...)` insertion lives
inside the field loop, so a module whose only struct `5` has no fields parses
to an empty map with no entry for `5`. -/
theorem c6_zero_field_struct_has_no_entry :
    parse_module true modC6 = ([], []) ∧
    mapLookup 5 (parse_module true modC6).1 = none := by
  constructor <;>
    simp +decide [parse_module, parseStructFields, parseStructTypes, modC6, mapLookup,
      resolveTypes]

/-!
Walker field-map characterization (claim C6).
-/

/-- The field map `parse_module` accumulates for one struct's field list when
the struct's entry starts out absent: fold of `BTreeMap::insert` over the
declared fields. -/
def fieldMapOf (fields : List MoveStructField) : FieldMap :=
  fields.foldl (fun fm f => mapInsert Nat.blt f.name f.typ fm) []

theorem lookup_mem {κ α : Type} [DecidableEq κ] {k : κ} {v : α} {l : List (κ × α)}
    (h : mapLookup k l = some v) : (k, v) ∈ l := by
  induction l with
  | nil => simp [mapLookup] at h
  | cons hd tl ih =>
    obtain ⟨k2, v2⟩ := hd
    simp only [mapLookup] at h
    by_cases h2 : k = k2
    · rw [if_pos h2] at h
      simp only [Option.some.injEq] at h
      simp [h2, h]
    · rw [if_neg h2] at h
      simp [ih h]

theorem mem_lookup {κ α : Type} [DecidableEq κ] {blt : κ → κ → Bool}
    (hirr : ∀ a : κ, blt a a = false)
    {k : κ} {v : α} {l : List (κ × α)}
    (hl : l.Pairwise (fun p q => blt p.1 q.1 = true))
    (h : (k, v) ∈ l) : mapLookup k l = some v := by
  induction l with
  | nil => simp at h
  | cons hd tl ih =>
    obtain ⟨k2, v2⟩ := hd
    rw [List.pairwise_cons] at hl
    obtain ⟨hhd, htl⟩ := hl
    simp only [List.mem_cons] at h
    rcases h with h | h
    · simp only [Prod.mk.injEq] at h
      simp [mapLookup, h.1, h.2]
    · have hne : k ≠ k2 := by
        intro he
        have := hhd (k, v) h
        simp only at this
        rw [← he, hirr k] at this
        exact Bool.false_ne_true this
      simp [mapLookup, hne, ih htl h]

theorem parseStructFields_lookup_ne {n : Nat} {s : MoveStruct} {si : StructsInfo}
    (hne : n ≠ s.name) :
    mapLookup n (parseStructFields si s) = mapLookup n si := by
  unfold parseStructFields
  generalize s.fields = fields
  induction fields generalizing si with
  | nil => rfl
  | cons f fs ih =>
    rw [List.foldl_cons, ih]
    exact mapLookup_mapInsert_ne (fun a b h1 h2 => Nat.eq_of_not_blt2 h1 h2) hne

theorem structsFold_lookup_not_mem {n : Nat} {l : List MoveStruct} {si : StructsInfo}
    (hn : n ∉ l.map MoveStruct.name) :
    mapLookup n (l.foldl parseStructFields si) = mapLookup n si := by
  induction l generalizing si with
  | nil => rfl
  | cons s l ih =>
    simp only [List.map_cons, List.mem_cons] at hn
    push_neg at hn
    rw [List.foldl_cons, ih hn.2, parseStructFields_lookup_ne hn.1]

theorem fieldsFold_lookup_self {sname : Nat} :
    ∀ (fields : List MoveStructField) (si : StructsInfo), fields ≠ [] →
      mapLookup sname (fields.foldl ( insertFieldInfo sname) si) =
        some (fields.foldl (fun fm f => mapInsert Nat.blt f.name f.typ fm)
          ((mapLookup sname si).getD [])) := by
  intro fields
  induction fields with
  | nil => intro si h; exact absurd rfl h
  | cons f fs ih =>
    intro si _
    rw [List.foldl_cons, List.foldl_cons]
    by_cases hfs : fs = []
    · subst hfs
      simp only [List.foldl_nil, insertFieldInfo]
      rw [mapLookup_mapInsert_self Nat.blt_irrefl2]
    · rw [ih _ hfs]
      have : mapLookup sname ( insertFieldInfo sname si f) =
          some (mapInsert Nat.blt f.name f.typ ((mapLookup sname si).getD [])) := by
        unfold insertFieldInfo
        rw [mapLookup_mapInsert_self Nat.blt_irrefl2]
      rw [this]
      rfl

theorem parseStructFields_lookup_self {s : MoveStruct} {si : StructsInfo}
    (h : s.fields ≠ []) (h0 : mapLookup s.name si = none) :
    mapLookup s.name (parseStructFields si s) = some (fieldMapOf s.fields) := by
  unfold parseStructFields fieldMapOf
  rw [fieldsFold_lookup_self s.fields si h, h0]
  rfl

theorem structsFold_lookup_char :
    ∀ (l : List MoveStruct) (si : StructsInfo) (s : MoveStruct), s ∈ l →
      (l.map MoveStruct.name).Nodup → mapLookup s.name si = none →
      mapLookup s.name (l.foldl parseStructFields si) =
        if s.fields = [] then none else some (fieldMapOf s.fields) := by
  intro l
  induction l with
  | nil => intro si s hs; simp at hs
  | cons t l ih =>
    intro si s hs hnd h0
    simp only [List.map_cons, List.nodup_cons] at hnd
    obtain ⟨htn, hnd2⟩ := hnd
    simp only [List.mem_cons] at hs
    rcases hs with hs | hs
    · subst hs
      rw [List.foldl_cons]
      have hpres : s.name ∉ l.map MoveStruct.name := htn
      rw [structsFold_lookup_not_mem hpres]
      by_cases hf : s.fields = []
      · rw [if_pos hf]
        have : parseStructFields si s = si := by
          unfold parseStructFields
          rw [hf]
          rfl
        rw [this, h0]
      · rw [if_neg hf]
        exact parseStructFields_lookup_self hf h0
    · rw [List.foldl_cons]
      have hne : s.name ≠ t.name := by
        intro he
        exact htn (he ▸ List.mem_map_of_mem MoveStruct.name hs)
      refine ih _ s hs hnd2 ?_
      rw [parseStructFields_lookup_ne hne]
      exact h0

theorem parse_module_fst (r : Bool) (m : MoveModule) :
    (parse_module r m).1 = m.structs.foldl parseStructFields [] := by
  suffices h : ∀ (l : List MoveStruct) (p : StructsInfo × List ModuleId),
      (l.foldl
        (fun p struc => (parseStructFields p.1 struc, parseStructTypes r struc p.2)) p).1
        = l.foldl parseStructFields p.1 by
    simpa [parse_module] using h m.structs ([], [])
  intro l
  induction l with
  | nil => intro p; rfl
  | cons s l ih => intro p; simpa using ih _

theorem fieldsFold_lookup_not_mem {n : Nat} :
    ∀ (fields : List MoveStructField) (fm0 : FieldMap),
      n ∉ fields.map MoveStructField.name →
      mapLookup n (fields.foldl (fun fm f => mapInsert Nat.blt f.name f.typ fm) fm0) =
        mapLookup n fm0 := by
  intro fields
  induction fields with
  | nil => intro fm0 _; rfl
  | cons f fs ih =>
    intro fm0 hn
    simp only [List.map_cons, List.mem_cons] at hn
    push_neg at hn
    rw [List.foldl_cons, ih _ hn.2,
      mapLookup_mapInsert_ne (fun a b h1 h2 => Nat.eq_of_not_blt2 h1 h2) hn.1]

theorem fieldsFold_content :
    ∀ (fields : List MoveStructField) (fm0 : FieldMap),
      (fields.map MoveStructField.name).Nodup →
      ∀ f ∈ fields,
        mapLookup f.name
          (fields.foldl (fun fm g => mapInsert Nat.blt g.name g.typ fm) fm0) =
          some f.typ := by
  intro fields
  induction fields with
  | nil => intro fm0 _ f hf; simp at hf
  | cons g gs ih =>
    intro fm0 hnd f hf
    simp only [List.map_cons, List.nodup_cons] at hnd
    obtain ⟨hgn, hnd2⟩ := hnd
    simp only [List.mem_cons] at hf
    rcases hf with hf | hf
    · subst hf
      rw [List.foldl_cons, fieldsFold_lookup_not_mem gs _ hgn,
        mapLookup_mapInsert_self Nat.blt_irrefl2]
    · rw [List.foldl_cons]
      exact ih _ hnd2 f hf

theorem fieldsFold_domain {x : Nat} :
    ∀ (fields : List MoveStructField) (fm0 : FieldMap),
      (mapLookup x
          (fields.foldl (fun fm f => mapInsert Nat.blt f.name f.typ fm) fm0)).isSome = true ↔
        x ∈ fields.map MoveStructField.name ∨ (mapLookup x fm0).isSome = true := by
  intro fields
  induction fields with
  | nil => intro fm0; simp
  | cons g gs ih =>
    intro fm0
    rw [List.foldl_cons, ih]
    by_cases hx : x = g.name
    · subst hx
      rw [mapLookup_mapInsert_self Nat.blt_irrefl2]
      simp
    · rw [mapLookup_mapInsert_ne (fun a b h1 h2 => Nat.eq_of_not_blt2 h1 h2) hx]
      simp only [List.map_cons, List.mem_cons]
      tauto

theorem fieldsFold_sorted :
    ∀ (fields : List MoveStructField) (fm0 : FieldMap),
      fm0.Pairwise (fun p q => Nat.blt p.1 q.1 = true) →
      (fields.foldl (fun fm f => mapInsert Nat.blt f.name f.typ fm) fm0).Pairwise
        (fun p q => Nat.blt p.1 q.1 = true) := by
  intro fields
  induction fields with
  | nil => intro fm0 h; exact h
  | cons g gs ih =>
    intro fm0 h
    rw [List.foldl_cons]
    exact ih _ (mapInsert_pairwise Nat.blt
      (fun a b c h1 h2 => Nat.blt_trans2 h1 h2)
      (fun a b h1 h2 => Nat.eq_of_not_blt2 h1 h2) h)

theorem fieldMapOf_sorted (fields : List MoveStructField) :
    (fieldMapOf fields).Pairwise (fun p q => Nat.blt p.1 q.1 = true) :=
  fieldsFold_sorted fields [] List.Pairwise.nil

theorem fieldMapOf_perm {f1 f2 : List MoveStructField} (hp : f1.Perm f2)
    (hnd : (f1.map MoveStructField.name).Nodup) : fieldMapOf f1 = fieldMapOf f2 := by
  have hnd2 : (f2.map MoveStructField.name).Nodup :=
    ((hp.map MoveStructField.name).nodup_iff).1 hnd
  have hlookup : ∀ k, mapLookup k (fieldMapOf f1) = mapLookup k (fieldMapOf f2) := by
    intro k
    by_cases hk : k ∈ f1.map MoveStructField.name
    · obtain ⟨f, hf, hfn⟩ := List.mem_map.1 hk
      subst hfn
      unfold fieldMapOf
      rw [fieldsFold_content f1 [] hnd f hf,
        fieldsFold_content f2 [] hnd2 f (hp.subset hf)]
    · have hk2 : k ∉ f2.map MoveStructField.name := by
        intro h
        exact hk ((hp.map MoveStructField.name).mem_iff.2 h)
      unfold fieldMapOf
      rw [fieldsFold_lookup_not_mem f1 [] hk, fieldsFold_lookup_not_mem f2 [] hk2]
  refine sorted_eq_of_mem_iff (fun p q : Nat × MoveType => Nat.blt p.1 q.1)
    (fun p => Nat.blt_irrefl2 p.1)
    (fun p q r h1 h2 => Nat.blt_trans2 h1 h2)
    (fieldMapOf_sorted f1) (fieldMapOf_sorted f2) ?_
  intro p
  obtain ⟨k, v⟩ := p
  constructor
  · intro hm
    exact lookup_mem ((hlookup k) ▸ mem_lookup Nat.blt_irrefl2 (fieldMapOf_sorted f1) hm)
  · intro hm
    exact lookup_mem ((hlookup k).symm ▸ mem_lookup Nat.blt_irrefl2 (fieldMapOf_sorted f2) hm)

theorem forall2_mem_left {α β : Type} {R : α → β → Prop} :
    ∀ {l : List α} {l2 : List β}, List.Forall₂ R l l2 → ∀ a ∈ l, ∃ b ∈ l2, R a b := by
  intro l l2 h
  induction h with
  | nil => simp
  | cons hR hRs ih =>
    intro a ha
    simp only [List.mem_cons] at ha
    rcases ha with ha | ha
    · subst ha
      exact ⟨_, by simp, hR⟩
    · obtain ⟨b, hb, hab⟩ := ih a ha
      exact ⟨b, by simp [hb], hab⟩

theorem forall2_names_eq {R : MoveStruct → MoveStruct → Prop}
    (hR : ∀ s s2, R s s2 → s.name = s2.name) :
    ∀ {l l2 : List MoveStruct}, List.Forall₂ R l l2 →
      l.map MoveStruct.name = l2.map MoveStruct.name := by
  intro l l2 hf
  induction hf with
  | nil => rfl
  | cons h _ ih =>
    simp only [List.map_cons, ih]
    rw [hR _ _ h]

/-- C6 (amended): for every walked module whose struct names are distinct, a
struct declaring zero fields gets NO entry in the walker's output (the
original claim's "empty map" is corrected by `c6_zero_field_struct_has_no_entry`);
every struct with at least one field gets the map `fieldMapOf` of its declared
fields, which records each field's type verbatim and contains exactly the
declared field names; and the per-struct result is independent of the order of
the fields in the source module. -/
theorem c6_walker_field_maps (r : Bool) (m : MoveModule)
    (hnames : (m.structs.map MoveStruct.name).Nodup) :
    (∀ s ∈ m.structs, s.fields = [] →
        mapLookup s.name (parse_module r m).1 = none) ∧
    (∀ s ∈ m.structs, s.fields ≠ [] →
        mapLookup s.name (parse_module r m).1 = some (fieldMapOf s.fields)) ∧
    (∀ s ∈ m.structs, (s.fields.map MoveStructField.name).Nodup →
        (∀ f ∈ s.fields, mapLookup f.name (fieldMapOf s.fields) = some f.typ) ∧
        (∀ x, (mapLookup x (fieldMapOf s.fields)).isSome = true ↔
            x ∈ s.fields.map MoveStructField.name)) ∧
    (∀ m' : MoveModule,
        List.Forall₂ (fun s s2 => s.name = s2.name ∧ s.fields.Perm s2.fields ∧
          (s.fields.map MoveStructField.name).Nodup) m.structs m'.structs →
        ∀ n, mapLookup n (parse_module r m').1 = mapLookup n (parse_module r m).1) := by
  refine ⟨?_, ?_, ?_, ?_⟩
  · intro s hs hf
    rw [parse_module_fst]
    rw [structsFold_lookup_char m.structs [] s hs hnames rfl]
    rw [if_pos hf]
  · intro s hs hf
    rw [parse_module_fst]
    rw [structsFold_lookup_char m.structs [] s hs hnames rfl]
    rw [if_neg hf]
  · intro s _ hnd
    constructor
    · intro f hf
      unfold fieldMapOf
      exact fieldsFold_content s.fields [] hnd f hf
    · intro x
      unfold fieldMapOf
      rw [fieldsFold_domain]
      simp [mapLookup]
  · intro m2 hf n
    have hmapeq : m.structs.map MoveStruct.name = m2.structs.map MoveStruct.name :=
      forall2_names_eq (fun s s2 h => h.1) hf
    have hnames2 : (m2.structs.map MoveStruct.name).Nodup := hmapeq ▸ hnames
    by_cases hn : n ∈ m.structs.map MoveStruct.name
    · obtain ⟨s, hs, hsn⟩ := List.mem_map.1 hn
      obtain ⟨s2, hs2, hR⟩ := forall2_mem_left hf s hs
      obtain ⟨hRn, hRp, hRnd⟩ := hR
      subst hsn
      rw [parse_module_fst, parse_module_fst]
      have h1 := structsFold_lookup_char m.structs [] s hs hnames rfl
      have h2 := structsFold_lookup_char m2.structs [] s2 hs2 hnames2 rfl
      rw [← hRn] at h2
      rw [h1, h2]
      by_cases hfe : s.fields = []
      · have hfe2 : s2.fields = [] := List.Perm.eq_nil ((hfe ▸ hRp).symm)
        rw [if_pos hfe, if_pos hfe2]
      · have hfe2 : s2.fields ≠ [] := by
          intro h
          exact hfe (List.Perm.eq_nil (h ▸ hRp))
        rw [if_neg hfe, if_neg hfe2, fieldMapOf_perm hRp hRnd]
    · have hn2 : n ∉ m2.structs.map MoveStruct.name := hmapeq ▸ hn
      rw [parse_module_fst, parse_module_fst,
        structsFold_lookup_not_mem hn, structsFold_lookup_not_mem hn2]

/-- Witness for the amended C6 theorem at a concrete module. -/
theorem c6_walker_field_maps_witness :
    ((modC3A.structs.map MoveStruct.name).Nodup) ∧
    mapLookup 0 (parse_module true modC3A).1 = some (fieldMapOf [⟨0, .u8⟩]) := by
  have hn : (modC3A.structs.map MoveStruct.name).Nodup := by simp [modC3A]
  refine ⟨hn, ?_⟩
  have h := (c6_walker_field_maps true modC3A hn).2.1 ⟨0, [⟨0, MoveType.u8⟩]⟩
    (by simp [modC3A]) (by simp)
  simpa [modC3A] using h

/-!
Canonical (key-sorted) shape of the produced Field Type Index (claim C7).
-/

/-- A field map with strictly ascending field-name keys. -/
def FieldMapSorted (fm : FieldMap) : Prop :=
  fm.Pairwise (fun p q => Nat.blt p.1 q.1 = true)

/-- A structs-info map with strictly ascending struct-name keys and sorted
field maps. -/
def StructsInfoSorted (si : StructsInfo) : Prop :=
  si.Pairwise (fun p q => Nat.blt p.1 q.1 = true) ∧ ∀ p ∈ si, FieldMapSorted p.2

/-- A Field Type Index with strictly ascending module keys and sorted
struct/field maps throughout. -/
def FieldInfoSorted (fi : FieldInfo) : Prop :=
  fi.Pairwise (fun p q => ModuleId.blt p.1 q.1 = true) ∧ ∀ p ∈ fi, StructsInfoSorted p.2

theorem insertFieldInfo_sorted {sname : Nat} {si : StructsInfo} {f : MoveStructField}
    (h : StructsInfoSorted si) : StructsInfoSorted ( insertFieldInfo sname si f) := by
  obtain ⟨hkeys, hvals⟩ := h
  constructor
  · exact mapInsert_pairwise Nat.blt
      (fun a b c h1 h2 => Nat.blt_trans2 h1 h2)
      (fun a b h1 h2 => Nat.eq_of_not_blt2 h1 h2) hkeys
  · intro p hp
    rcases mem_of_mem_mapInsert p hp with hpe | hpe
    · subst hpe
      refine mapInsert_pairwise Nat.blt
        (fun a b c h1 h2 => Nat.blt_trans2 h1 h2)
        (fun a b h1 h2 => Nat.eq_of_not_blt2 h1 h2) ?_
      cases hl : mapLookup sname si with
      | none => simp [FieldMapSorted]
      | some v =>
        have := hvals (sname, v) (lookup_mem hl)
        simpa [hl, FieldMapSorted] using this
    · exact hvals p hpe

theorem parseStructFields_sorted {si : StructsInfo} {s : MoveStruct}
    (h : StructsInfoSorted si) : StructsInfoSorted (parseStructFields si s) := by
  unfold parseStructFields
  generalize s.fields = fields
  induction fields generalizing si with
  | nil => exact h
  | cons f fs ih => exact ih (insertFieldInfo_sorted h)

theorem parse_module_fst_sorted (r : Bool) (m : MoveModule) :
    StructsInfoSorted (parse_module r m).1 := by
  rw [parse_module_fst]
  have h : ∀ (l : List MoveStruct) (si : StructsInfo), StructsInfoSorted si →
      StructsInfoSorted (l.foldl parseStructFields si) := by
    intro l
    induction l with
    | nil => intro si h; exact h
    | cons s l ih => intro si h; exact ih _ (parseStructFields_sorted h)
  exact h m.structs [] ⟨List.Pairwise.nil, by simp⟩

theorem parsePhase_sorted (r : Bool) :
    ∀ (mods : ModMap) (fi : FieldInfo) (toRet : List ModuleId), FieldInfoSorted fi →
      FieldInfoSorted ((parsePhase r mods fi toRet).1) := by
  intro mods
  induction mods with
  | nil => intro fi toRet h; exact h
  | cons hd rest ih =>
    intro fi toRet h
    obtain ⟨id, module⟩ := hd
    obtain ⟨hkeys, hvals⟩ := h
    simp only [parsePhase]
    refine ih _ _ ⟨?_, ?_⟩
    · exact mapInsert_pairwise ModuleId.blt
        (fun a b c h1 h2 => ModuleId.blt_trans h1 h2)
        (fun a b h1 h2 => ModuleId.eq_of_not_blt h1 h2) hkeys
    · intro p hp
      rcases mem_of_mem_mapInsert p hp with hpe | hpe
      · subst hpe
        exact parse_module_fst_sorted r module
      · exact hvals p hpe

theorem buildLoop_ok_sorted (r : Bool) (client : Option ModuleSource) :
    ∀ (fuel : Nat) (toRet : List ModuleId) (mods : ModMap) (fi : FieldInfo)
      (ta : TypeAccessor), FieldInfoSorted fi →
      (buildLoop r client fuel toRet mods fi).2 = some (.ok ta) →
      FieldInfoSorted ta.field_info := by
  intro fuel
  induction fuel with
  | zero =>
    intro toRet mods fi ta _ hok
    simp [buildLoop] at hok
  | succ n ih =>
    intro toRet mods fi ta hfi hok
    rw [buildLoop] at hok
    by_cases ht : toRet.isEmpty
    · rw [ht] at hok
      simp only [Bool.not_true, Bool.false_eq_true, if_false] at hok
      by_cases hm : mods.isEmpty
      · rw [hm] at hok
        simp only [Bool.not_true, Bool.false_eq_true, if_false] at hok
        simp only [Option.some.injEq, Outcome.ok.injEq] at hok
        rw [← hok]
        exact hfi
      · rw [Bool.not_eq_true] at hm
        rw [hm] at hok
        simp only [Bool.not_false, if_true] at hok
        exact ih _ _ _ _ (parsePhase_sorted r mods fi toRet hfi) hok
    · rw [Bool.not_eq_true] at ht
      rw [ht] at hok
      simp only [Bool.not_false, if_true] at hok
      rcases hrp : retrievePhase client toRet mods with ⟨tr, out⟩
      rw [hrp] at hok
      cases out with
      | ok mods2 =>
        simp only at hok
        exact ih _ _ _ _ hfi hok
      | err e => simp at hok
      | panicked => simp at hok

/-- C7: building twice from the same builder configuration (identical seeds,
flags and source) yields identical results — same fetch trace and the same
Field Type Index — and the produced index is canonical: module keys, struct
names and field names are all strictly ascending, so indexes with equal
contents are structurally (bit-) identical. -/
theorem c7_build_deterministic (b : TypeAccessorBuilder) (fuel : Nat)
    (tr1 tr2 : List ModuleId) (ta1 ta2 : TypeAccessor)
    (h1 : b.build fuel = (tr1, some (.ok ta1)))
    (h2 : b.build fuel = (tr2, some (.ok ta2))) :
    tr1 = tr2 ∧ ta1 = ta2 ∧ FieldInfoSorted ta1.field_info := by
  have heq : (tr1, some (Outcome.ok ta1)) = (tr2, some (Outcome.ok ta2)) := by
    rw [← h1, ← h2]
  have htr : tr1 = tr2 := congrArg Prod.fst heq
  have hta : ta1 = ta2 := by
    have := congrArg Prod.snd heq
    simp only [Option.some.injEq, Outcome.ok.injEq] at this
    exact this
  refine ⟨htr, hta, ?_⟩
  rw [TypeAccessorBuilder.build] at h1
  by_cases hv1 : b.modules_to_retrieve.isEmpty && b.modules.isEmpty
  · rw [if_pos hv1] at h1
    simp [Prod.ext_iff] at h1
  · rw [if_neg (by simp [hv1])] at h1
    by_cases hv2 : !b.modules_to_retrieve.isEmpty && b.rest_client.isNone
    · rw [if_pos hv2] at h1
      simp [Prod.ext_iff] at h1
    · rw [if_neg (by simp [hv2])] at h1
      refine buildLoop_ok_sorted b.recurse b.rest_client fuel
        b.modules_to_retrieve b.modules [] ta1 ⟨List.Pairwise.nil, by simp⟩ ?_
      rw [h1]

/-- Witness for C7 at a concrete build run twice. -/
theorem c7_build_deterministic_witness :
    builderC4off.build 10 =
      ([], some (.ok ⟨[(idA, [(0, [(0, .struct 0 1 1 [])])])]⟩)) ∧
    FieldInfoSorted [(idA, [(0, [(0, .struct 0 1 1 [])])])] := by
  have hb : builderC4off.build 10 =
      ([], some (.ok ⟨[(idA, [(0, [(0, .struct 0 1 1 [])])])]⟩)) := by
    simp +decide [TypeAccessorBuilder.build, builderC4off, TypeAccessorBuilder.new,
      TypeAccessorBuilder.add_module, TypeAccessorBuilder.add_modules,
      TypeAccessorBuilder.do_not_recurse, buildLoop, retrievePhase, parsePhase,
      parse_module, parseStructFields, parseStructTypes, insertFieldInfo, resolveTypes,
      retrieve_module, mapInsert, mapLookup, containsKey, setInsert, ModuleId.blt,
      modC4A, idA]
  exact ⟨hb, (c7_build_deterministic builderC4off 10 [] []
    ⟨[(idA, [(0, [(0, .struct 0 1 1 [])])])]⟩
    ⟨[(idA, [(0, [(0, .struct 0 1 1 [])])])]⟩ hb hb).2.2⟩

/-!
Characterization of the per-struct type traversal (claim C9): the set of
modules `resolveTypes` discovers is exactly the set of struct references
reachable through vector/reference wrappers, independent of reference
mutability flags.
-/

/-- The inner type expressions the traversal pushes for a given node. -/
def MoveType.children : MoveType → List MoveType
  | .vector t => [t]
  | .reference _ t => [t]
  | _ => []

/-- The module identifier the traversal records at a given node. -/
def MoveType.headRefs : MoveType → List ModuleId
  | .struct a m _ _ => [⟨a, m⟩]
  | _ => []

/-- All struct-reference module identifiers reachable from a type through
vector/reference wrappers (struct type arguments are not traversed). -/
def MoveType.refsBelow : MoveType → List ModuleId
  | .vector t => t.refsBelow
  | .reference _ t => t.refsBelow
  | .struct a m _ _ => [⟨a, m⟩]
  | _ => []

mutual

/-- Normalize every reference's mutability flag to `false`, recursively. -/
def MoveType.eraseMut : MoveType → MoveType
  | .vector t => .vector t.eraseMut
  | .reference _ t => .reference false t.eraseMut
  | .struct a m n g => .struct a m n (MoveType.eraseMutList g)
  | t => t

/-- `MoveType.eraseMut` mapped over a list of type arguments. -/
def MoveType.eraseMutList : List MoveType → List MoveType
  | [] => []
  | t :: ts => t.eraseMut :: MoveType.eraseMutList ts

end

theorem MoveType.refsBelow_eraseMut : ∀ t : MoveType, t.eraseMut.refsBelow = t.refsBelow
  | .vector t => by
      simp [MoveType.eraseMut, MoveType.refsBelow, MoveType.refsBelow_eraseMut t]
  | .reference mu t => by
      simp [MoveType.eraseMut, MoveType.refsBelow, MoveType.refsBelow_eraseMut t]
  | .struct a m n g => by simp [MoveType.eraseMut, MoveType.refsBelow]
  | .bool | .u8 | .u16 | .u32 | .u64 | .u128 | .u256 | .address | .signer => rfl
  | .genericTypeParam i => rfl

/-- The traversal of `resolveTypes`, additionally returning the final seen
set (proof artifact: same recursion, used to state the closure invariant). -/
def resolveAux (seen stack : List MoveType) (acc : List ModuleId) :
    List MoveType × List ModuleId :=
  match stack with
  | [] => (seen, acc)
  | typ :: rest =>
    if typ ∈ seen then resolveAux seen rest acc
    else
      match typ with
      | .vector t => resolveAux (typ :: seen) (t :: rest) acc
      | .reference _ t => resolveAux (typ :: seen) (t :: rest) acc
      | .struct a m _ _ => resolveAux (typ :: seen) rest (setInsert ModuleId.blt ⟨a, m⟩ acc)
      | _ => resolveAux (typ :: seen) rest acc
termination_by (stack.map MoveType.measure).sum
decreasing_by
  all_goals simp only [List.map_cons, List.sum_cons, MoveType.measure]
  all_goals first
  | omega
  | (have h := MoveType.measure_pos typ; omega)
  | (rename_i u; have h := MoveType.measure_pos u; omega)

theorem resolveTypes_eq_aux :
    ∀ (seen stack : List MoveType) (acc : List ModuleId),
      resolveTypes seen stack acc = (resolveAux seen stack acc).2 := by
  intro seen stack acc
  induction seen, stack, acc using resolveAux.induct
  case case1 seen acc =>
    rw [resolveTypes.eq_def, resolveAux.eq_def]
  case case2 seen acc typ rest h ih =>
    rw [resolveTypes.eq_def, resolveAux.eq_def]
    dsimp only
    rw [if_pos h, if_pos h]
    exact ih
  case case3 seen acc rest t h ih =>
    rw [resolveTypes.eq_def, resolveAux.eq_def]
    dsimp only
    rw [if_neg h, if_neg h]
    exact ih
  case case4 seen acc rest mu t h ih =>
    rw [resolveTypes.eq_def, resolveAux.eq_def]
    dsimp only
    rw [if_neg h, if_neg h]
    exact ih
  case case5 seen acc rest a m nm g h ih =>
    rw [resolveTypes.eq_def, resolveAux.eq_def]
    dsimp only
    rw [if_neg h, if_neg h]
    exact ih
  case case6 seen acc typ rest h hnv hnr hns ih =>
    cases typ
    case vector t => exact (hnv t rfl).elim
    case reference mu t => exact (hnr mu t rfl).elim
    case struct a m nm g => exact (hns a m nm g rfl).elim
    all_goals
      rw [resolveTypes.eq_def, resolveAux.eq_def]
      dsimp only
      rw [if_neg (by assumption), if_neg (by assumption)]
      exact ih

/-- The traversal invariant: every seen node already has its struct reference
recorded in the accumulator, and each of its children is either seen or still
on the work-list. -/
def TypesInv (seen stack : List MoveType) (acc : List ModuleId) : Prop :=
  ∀ u ∈ seen, (∀ y ∈ u.headRefs, y ∈ acc) ∧ (∀ c ∈ u.children, c ∈ seen ∨ c ∈ stack)

theorem typesInv_skip {seen rest : List MoveType} {typ : MoveType} {acc : List ModuleId}
    (h : TypesInv seen (typ :: rest) acc) (htyp : typ ∈ seen) :
    TypesInv seen rest acc := by
  intro u hu
  refine ⟨(h u hu).1, ?_⟩
  intro c hc
  rcases (h u hu).2 c hc with hcs | hcs
  · exact Or.inl hcs
  · rcases List.mem_cons.1 hcs with he | h2
    · exact Or.inl (he ▸ htyp)
    · exact Or.inr h2

theorem typesInv_step {seen rest stack2 : List MoveType} {typ : MoveType}
    {acc acc2 : List ModuleId}
    (h : TypesInv seen (typ :: rest) acc)
    (hins : ∀ y ∈ acc, y ∈ acc2)
    (hhead : ∀ y ∈ typ.headRefs, y ∈ acc2)
    (hchild : ∀ c ∈ typ.children, c ∈ stack2)
    (hrest : ∀ c ∈ rest, c ∈ stack2) :
    TypesInv (typ :: seen) stack2 acc2 := by
  intro u hu
  rcases List.mem_cons.1 hu with he | hu2
  · subst he
    exact ⟨hhead, fun c hc => Or.inr (hchild c hc)⟩
  · obtain ⟨h1, h2⟩ := h u hu2
    refine ⟨fun y hy => hins y (h1 y hy), ?_⟩
    intro c hc
    rcases h2 c hc with hcs | hcs
    · exact Or.inl (List.mem_cons_of_mem _ hcs)
    · rcases List.mem_cons.1 hcs with he | hcr
      · exact Or.inl (by simp [he])
      · exact Or.inr (hrest c hcr)

theorem resolveAux_seen_mono :
    ∀ (seen stack : List MoveType) (acc : List ModuleId),
      ∀ x ∈ seen, x ∈ (resolveAux seen stack acc).1 := by
  intro seen stack acc
  induction seen, stack, acc using resolveAux.induct
  case case1 seen acc =>
    rw [resolveAux.eq_def]
    dsimp only
    exact fun x hx => hx
  case case2 seen acc typ rest h ih =>
    rw [resolveAux.eq_def]
    dsimp only
    rw [if_pos h]
    exact ih
  case case3 seen acc rest t h ih =>
    rw [resolveAux.eq_def]
    dsimp only
    rw [if_neg h]
    exact fun x hx => ih x (List.mem_cons_of_mem _ hx)
  case case4 seen acc rest mu t h ih =>
    rw [resolveAux.eq_def]
    dsimp only
    rw [if_neg h]
    exact fun x hx => ih x (List.mem_cons_of_mem _ hx)
  case case5 seen acc rest a m nm g h ih =>
    rw [resolveAux.eq_def]
    dsimp only
    rw [if_neg h]
    exact fun x hx => ih x (List.mem_cons_of_mem _ hx)
  case case6 seen acc typ rest h hnv hnr hns ih =>
    cases typ
    case vector t => exact (hnv t rfl).elim
    case reference mu t => exact (hnr mu t rfl).elim
    case struct a m nm g => exact (hns a m nm g rfl).elim
    all_goals
      rw [resolveAux.eq_def]
      dsimp only
      rw [if_neg (by assumption)]
      exact fun x hx => ih x (List.mem_cons_of_mem _ hx)

theorem resolveAux_acc_mono :
    ∀ (seen stack : List MoveType) (acc : List ModuleId),
      ∀ x ∈ acc, x ∈ (resolveAux seen stack acc).2 := by
  intro seen stack acc
  induction seen, stack, acc using resolveAux.induct
  case case1 seen acc =>
    rw [resolveAux.eq_def]
    dsimp only
    exact fun x hx => hx
  case case2 seen acc typ rest h ih =>
    rw [resolveAux.eq_def]
    dsimp only
    rw [if_pos h]
    exact ih
  case case3 seen acc rest t h ih =>
    rw [resolveAux.eq_def]
    dsimp only
    rw [if_neg h]
    exact ih
  case case4 seen acc rest mu t h ih =>
    rw [resolveAux.eq_def]
    dsimp only
    rw [if_neg h]
    exact ih
  case case5 seen acc rest a m nm g h ih =>
    rw [resolveAux.eq_def]
    dsimp only
    rw [if_neg h]
    exact fun x hx =>
      ih x ((mem_setInsert_iff (fun a b h1 h2 => ModuleId.eq_of_not_blt h1 h2)).2 (Or.inr hx))
  case case6 seen acc typ rest h hnv hnr hns ih =>
    cases typ
    case vector t => exact (hnv t rfl).elim
    case reference mu t => exact (hnr mu t rfl).elim
    case struct a m nm g => exact (hns a m nm g rfl).elim
    all_goals
      rw [resolveAux.eq_def]
      dsimp only
      rw [if_neg (by assumption)]
      exact ih

theorem resolveAux_stack_seen :
    ∀ (seen stack : List MoveType) (acc : List ModuleId),
      ∀ t ∈ stack, t ∈ (resolveAux seen stack acc).1 := by
  intro seen stack acc
  induction seen, stack, acc using resolveAux.induct
  case case1 seen acc => simp
  case case2 seen acc typ rest h ih =>
    rw [resolveAux.eq_def]
    dsimp only
    rw [if_pos h]
    intro t ht
    rcases List.mem_cons.1 ht with he | ht2
    · exact he ▸ resolveAux_seen_mono seen rest acc typ h
    · exact ih t ht2
  case case3 seen acc rest t h ih =>
    rw [resolveAux.eq_def]
    dsimp only
    rw [if_neg h]
    intro u hu
    rcases List.mem_cons.1 hu with he | hu2
    · exact he ▸ resolveAux_seen_mono _ _ acc _ (by simp)
    · exact ih u (List.mem_cons_of_mem _ hu2)
  case case4 seen acc rest mu t h ih =>
    rw [resolveAux.eq_def]
    dsimp only
    rw [if_neg h]
    intro u hu
    rcases List.mem_cons.1 hu with he | hu2
    · exact he ▸ resolveAux_seen_mono _ _ acc _ (by simp)
    · exact ih u (List.mem_cons_of_mem _ hu2)
  case case5 seen acc rest a m nm g h ih =>
    rw [resolveAux.eq_def]
    dsimp only
    rw [if_neg h]
    intro u hu
    rcases List.mem_cons.1 hu with he | hu2
    · exact he ▸ resolveAux_seen_mono _ _ _ _ (by simp)
    · exact ih u hu2
  case case6 seen acc typ rest h hnv hnr hns ih =>
    cases typ
    case vector t => exact (hnv t rfl).elim
    case reference mu t => exact (hnr mu t rfl).elim
    case struct a m nm g => exact (hns a m nm g rfl).elim
    all_goals
      rw [resolveAux.eq_def]
      dsimp only
      rw [if_neg (by assumption)]
      intro u hu
      rcases List.mem_cons.1 hu with he | hu2
      · exact he ▸ resolveAux_seen_mono _ _ _ _ (by simp)
      · exact ih u hu2

theorem resolveAux_closed :
    ∀ (seen stack : List MoveType) (acc : List ModuleId), TypesInv seen stack acc →
      TypesInv (resolveAux seen stack acc).1 [] (resolveAux seen stack acc).2 := by
  intro seen stack acc
  induction seen, stack, acc using resolveAux.induct
  case case1 seen acc =>
    intro hinv
    rw [resolveAux.eq_def]
    dsimp only
    intro u hu
    refine ⟨(hinv u hu).1, ?_⟩
    intro c hc
    rcases (hinv u hu).2 c hc with hcs | hcs
    · exact Or.inl hcs
    · simp at hcs
  case case2 seen acc typ rest h ih =>
    intro hinv
    rw [resolveAux.eq_def]
    dsimp only
    rw [if_pos h]
    exact ih (typesInv_skip hinv h)
  case case3 seen acc rest t h ih =>
    intro hinv
    rw [resolveAux.eq_def]
    dsimp only
    rw [if_neg h]
    refine ih (typesInv_step hinv (fun y hy => hy) ?_ ?_ ?_)
    · simp [MoveType.headRefs]
    · simp [MoveType.children]
    · exact fun c hc => List.mem_cons_of_mem _ hc
  case case4 seen acc rest mu t h ih =>
    intro hinv
    rw [resolveAux.eq_def]
    dsimp only
    rw [if_neg h]
    refine ih (typesInv_step hinv (fun y hy => hy) ?_ ?_ ?_)
    · simp [MoveType.headRefs]
    · simp [MoveType.children]
    · exact fun c hc => List.mem_cons_of_mem _ hc
  case case5 seen acc rest a m nm g h ih =>
    intro hinv
    rw [resolveAux.eq_def]
    dsimp only
    rw [if_neg h]
    refine ih (typesInv_step hinv ?_ ?_ ?_ (fun c hc => hc))
    · exact fun y hy =>
        (mem_setInsert_iff (fun a b h1 h2 => ModuleId.eq_of_not_blt h1 h2)).2 (Or.inr hy)
    · intro y hy
      simp only [MoveType.headRefs, List.mem_singleton] at hy
      exact (mem_setInsert_iff (fun a b h1 h2 => ModuleId.eq_of_not_blt h1 h2)).2 (Or.inl hy)
    · simp [MoveType.children]
  case case6 seen acc typ rest h hnv hnr hns ih =>
    cases typ
    case vector t => exact (hnv t rfl).elim
    case reference mu t => exact (hnr mu t rfl).elim
    case struct a m nm g => exact (hns a m nm g rfl).elim
    all_goals
      intro hinv
      rw [resolveAux.eq_def]
      dsimp only
      rw [if_neg (by assumption)]
      refine ih (typesInv_step hinv (fun y hy => hy) ?_ ?_ (fun c hc => hc))
      · simp [MoveType.headRefs]
      · simp [MoveType.children]

theorem refsBelow_subset_of_closed :
    ∀ (u : MoveType) (S : List MoveType) (A : List ModuleId),
      TypesInv S [] A → u ∈ S → ∀ x ∈ u.refsBelow, x ∈ A
  | .vector t, S, A, hinv, hu, x, hx => by
      have hc : t ∈ S := by
        rcases (hinv _ hu).2 t (by simp [MoveType.children]) with h | h
        · exact h
        · simp at h
      simp only [MoveType.refsBelow] at hx
      exact refsBelow_subset_of_closed t S A hinv hc x hx
  | .reference mu t, S, A, hinv, hu, x, hx => by
      have hc : t ∈ S := by
        rcases (hinv _ hu).2 t (by simp [MoveType.children]) with h | h
        · exact h
        · simp at h
      simp only [MoveType.refsBelow] at hx
      exact refsBelow_subset_of_closed t S A hinv hc x hx
  | .struct a m nm g, S, A, hinv, hu, x, hx => by
      refine (hinv _ hu).1 x ?_
      simpa [MoveType.headRefs, MoveType.refsBelow] using hx
  | .bool, _, _, _, _, x, hx => by simp [MoveType.refsBelow] at hx
  | .u8, _, _, _, _, x, hx => by simp [MoveType.refsBelow] at hx
  | .u16, _, _, _, _, x, hx => by simp [MoveType.refsBelow] at hx
  | .u32, _, _, _, _, x, hx => by simp [MoveType.refsBelow] at hx
  | .u64, _, _, _, _, x, hx => by simp [MoveType.refsBelow] at hx
  | .u128, _, _, _, _, x, hx => by simp [MoveType.refsBelow] at hx
  | .u256, _, _, _, _, x, hx => by simp [MoveType.refsBelow] at hx
  | .address, _, _, _, _, x, hx => by simp [MoveType.refsBelow] at hx
  | .signer, _, _, _, _, x, hx => by simp [MoveType.refsBelow] at hx
  | .genericTypeParam i, _, _, _, _, x, hx => by simp [MoveType.refsBelow] at hx

theorem resolveAux_subset :
    ∀ (seen stack : List MoveType) (acc : List ModuleId),
      ∀ x ∈ (resolveAux seen stack acc).2,
        x ∈ acc ∨ ∃ t ∈ stack, x ∈ t.refsBelow := by
  intro seen stack acc
  induction seen, stack, acc using resolveAux.induct
  case case1 seen acc =>
    rw [resolveAux.eq_def]
    dsimp only
    exact fun x hx => Or.inl hx
  case case2 seen acc typ rest h ih =>
    rw [resolveAux.eq_def]
    dsimp only
    rw [if_pos h]
    intro x hx
    rcases ih x hx with h2 | ⟨t, ht, hxt⟩
    · exact Or.inl h2
    · exact Or.inr ⟨t, List.mem_cons_of_mem _ ht, hxt⟩
  case case3 seen acc rest t h ih =>
    rw [resolveAux.eq_def]
    dsimp only
    rw [if_neg h]
    intro x hx
    rcases ih x hx with h2 | ⟨u, hu, hxu⟩
    · exact Or.inl h2
    · rcases List.mem_cons.1 hu with he | hu2
      · exact Or.inr ⟨MoveType.vector t, by simp,
          by simpa [MoveType.refsBelow] using he ▸ hxu⟩
      · exact Or.inr ⟨u, List.mem_cons_of_mem _ hu2, hxu⟩
  case case4 seen acc rest mu t h ih =>
    rw [resolveAux.eq_def]
    dsimp only
    rw [if_neg h]
    intro x hx
    rcases ih x hx with h2 | ⟨u, hu, hxu⟩
    · exact Or.inl h2
    · rcases List.mem_cons.1 hu with he | hu2
      · exact Or.inr ⟨MoveType.reference mu t, by simp,
          by simpa [MoveType.refsBelow] using he ▸ hxu⟩
      · exact Or.inr ⟨u, List.mem_cons_of_mem _ hu2, hxu⟩
  case case5 seen acc rest a m nm g h ih =>
    rw [resolveAux.eq_def]
    dsimp only
    rw [if_neg h]
    intro x hx
    rcases ih x hx with h2 | ⟨u, hu, hxu⟩
    · rcases (mem_setInsert_iff (fun a b h1 h2 => ModuleId.eq_of_not_blt h1 h2)).1 h2
        with he | h3
      · exact Or.inr ⟨MoveType.struct a m nm g, by simp, by simp [MoveType.refsBelow, he]⟩
      · exact Or.inl h3
    · exact Or.inr ⟨u, List.mem_cons_of_mem _ hu, hxu⟩
  case case6 seen acc typ rest h hnv hnr hns ih =>
    cases typ
    case vector t => exact (hnv t rfl).elim
    case reference mu t => exact (hnr mu t rfl).elim
    case struct a m nm g => exact (hns a m nm g rfl).elim
    all_goals
      rw [resolveAux.eq_def]
      dsimp only
      rw [if_neg (by assumption)]
      intro x hx
      rcases ih x hx with h2 | ⟨u, hu, hxu⟩
      · exact Or.inl h2
      · exact Or.inr ⟨u, List.mem_cons_of_mem _ hu, hxu⟩

/-- The traversal's discovered set is exactly the accumulator plus every
struct reference reachable from the initial work-list. -/
theorem resolve_mem_iff (stack : List MoveType) (acc : List ModuleId) (x : ModuleId) :
    x ∈ resolveTypes [] stack acc ↔ x ∈ acc ∨ ∃ t ∈ stack, x ∈ t.refsBelow := by
  rw [resolveTypes_eq_aux]
  constructor
  · exact fun hx => resolveAux_subset [] stack acc x hx
  · intro hx
    rcases hx with hx | ⟨t, ht, hxt⟩
    · exact resolveAux_acc_mono [] stack acc x hx
    · have hts : t ∈ (resolveAux [] stack acc).1 := resolveAux_stack_seen [] stack acc t ht
      have hclosed := resolveAux_closed [] stack acc (by intro u hu; simp at hu)
      exact refsBelow_subset_of_closed t _ _ hclosed hts x hxt

theorem resolveTypes_pairwise :
    ∀ (seen stack : List MoveType) (acc : List ModuleId),
      acc.Pairwise (fun a b => ModuleId.blt a b = true) →
      (resolveTypes seen stack acc).Pairwise (fun a b => ModuleId.blt a b = true) := by
  intro seen stack acc
  induction seen, stack, acc using resolveTypes.induct
  case case1 seen acc =>
    rw [resolveTypes.eq_def]
    dsimp only
    exact fun h => h
  case case2 seen acc typ rest h ih =>
    rw [resolveTypes.eq_def]
    dsimp only
    rw [if_pos h]
    exact ih
  case case3 seen acc rest t h ih =>
    rw [resolveTypes.eq_def]
    dsimp only
    rw [if_neg h]
    exact ih
  case case4 seen acc rest mu t h ih =>
    rw [resolveTypes.eq_def]
    dsimp only
    rw [if_neg h]
    exact ih
  case case5 seen acc rest a m nm g h ih =>
    rw [resolveTypes.eq_def]
    dsimp only
    rw [if_neg h]
    intro hacc
    exact ih (setInsert_pairwise ModuleId.blt
      (fun a b c h1 h2 => ModuleId.blt_trans h1 h2)
      (fun a b h1 h2 => ModuleId.eq_of_not_blt h1 h2) hacc)
  case case6 seen acc typ rest h hnv hnr hns ih =>
    cases typ
    case vector t => exact (hnv t rfl).elim
    case reference mu t => exact (hnr mu t rfl).elim
    case struct a m nm g => exact (hns a m nm g rfl).elim
    all_goals
      rw [resolveTypes.eq_def]
      dsimp only
      rw [if_neg (by assumption)]
      exact ih

theorem refs_exists_of_eraseMut_map_eq {l1 l2 : List MoveType}
    (h : l1.map MoveType.eraseMut = l2.map MoveType.eraseMut) {x : ModuleId} :
    (∃ t ∈ l1, x ∈ t.refsBelow) ↔ (∃ t ∈ l2, x ∈ t.refsBelow) := by
  constructor
  · rintro ⟨t, ht, hxt⟩
    have h1 : t.eraseMut ∈ l2.map MoveType.eraseMut :=
      h ▸ List.mem_map_of_mem MoveType.eraseMut ht
    obtain ⟨t2, ht2, he⟩ := List.mem_map.1 h1
    refine ⟨t2, ht2, ?_⟩
    rw [← MoveType.refsBelow_eraseMut t2, he, MoveType.refsBelow_eraseMut t]
    exact hxt
  · rintro ⟨t, ht, hxt⟩
    have h1 : t.eraseMut ∈ l1.map MoveType.eraseMut :=
      h ▸ List.mem_map_of_mem MoveType.eraseMut ht
    obtain ⟨t2, ht2, he⟩ := List.mem_map.1 h1
    refine ⟨t2, ht2, ?_⟩
    rw [← MoveType.refsBelow_eraseMut t2, he, MoveType.refsBelow_eraseMut t]
    exact hxt

/-- C9: the set of module identifiers the Walker discovers from a struct's
field types is unchanged when the mutability flags of the references inside
those field types are flipped in any way: if two structs' field types agree
after normalizing every reference's mutability flag, the per-struct traversal
(`parseStructTypes`, i.e. `resolveTypes` on the field types) discovers exactly
the same (sorted, deduplicated) module set from any sorted accumulator. -/
theorem c9_mutability_irrelevant_to_discovery (s1 s2 : MoveStruct)
    (acc : List ModuleId)
    (hacc : acc.Pairwise (fun a b => ModuleId.blt a b = true))
    (h : s1.fields.map (fun f => f.typ.eraseMut) = s2.fields.map (fun f => f.typ.eraseMut)) :
    parseStructTypes true s1 acc = parseStructTypes true s2 acc := by
  unfold parseStructTypes
  rw [if_pos rfl, if_pos rfl]
  refine sorted_eq_of_mem_iff ModuleId.blt ModuleId.blt_irrefl
    (fun a b c h1 h2 => ModuleId.blt_trans h1 h2)
    (resolveTypes_pairwise [] _ acc hacc) (resolveTypes_pairwise [] _ acc hacc) ?_
  intro x
  rw [resolve_mem_iff, resolve_mem_iff]
  have hmap : ((s1.fields.map MoveStructField.typ).reverse).map MoveType.eraseMut =
      ((s2.fields.map MoveStructField.typ).reverse).map MoveType.eraseMut := by
    rw [List.map_reverse, List.map_reverse, List.map_map, List.map_map]
    have : (MoveType.eraseMut ∘ MoveStructField.typ) = fun f => f.typ.eraseMut := rfl
    rw [this, h]
  exact or_congr Iff.rfl (refs_exists_of_eraseMut_map_eq hmap)

/-- A struct whose field type is a mutable reference to a vector of a foreign
struct. -/
def structC9mut : MoveStruct :=
  ⟨0, [⟨0, .reference true (.vector (.struct 1 2 3 []))⟩]⟩

/-- The same struct with the reference's mutability flag flipped. -/
def structC9immut : MoveStruct :=
  ⟨0, [⟨0, .reference false (.vector (.struct 1 2 3 []))⟩]⟩

/-- Witness for C9 at a concrete pair of flag-flipped structs. -/
theorem c9_mutability_irrelevant_to_discovery_witness :
    List.Pairwise (fun a b => ModuleId.blt a b = true) ([] : List ModuleId) ∧
    structC9mut.fields.map (fun f => f.typ.eraseMut) =
      structC9immut.fields.map (fun f => f.typ.eraseMut) ∧
    parseStructTypes true structC9mut [] = parseStructTypes true structC9immut [] := by
  have h1 : List.Pairwise (fun a b => ModuleId.blt a b = true) ([] : List ModuleId) :=
    List.Pairwise.nil
  have h2 : structC9mut.fields.map (fun f => f.typ.eraseMut) =
      structC9immut.fields.map (fun f => f.typ.eraseMut) := by
    simp [structC9mut, structC9immut, MoveType.eraseMut, MoveType.eraseMutList]
  exact ⟨h1, h2, c9_mutability_irrelevant_to_discovery structC9mut structC9immut [] h1 h2⟩
